import Mathlib

/-!
Verification development for the rufaco fan-control daemon.

The Rust source is shallowly embedded: machine integers (`u8`, `i32`) are
modelled as `Nat`/`Int` with explicit saturation/overflow handling where the
source's semantics depend on it, fallible operations (panicking `.unwrap()`,
division by zero, checked arithmetic overflow) are modelled with `Option` or
dedicated result constructors, and floating-point values are modelled as
rationals.  Floating-point operations (`f32`/`f64` division, `mul_add`/fma,
casts) are parameterised by a rounding map `ρ : ℚ → ℚ`; instantiating
`ρ := fpRound 24` (resp. `fpRound 53`) gives IEEE-754 round-to-nearest-even
f32 (resp. f64) semantics on normal-range values, and `ρ := id` gives exact
real arithmetic.
-/

namespace Rufaco

/-! ### Floating-point rounding model -/

/-- Bit length of a natural number, driven by an explicit fuel so that the
kernel can evaluate it.  `natBitsAux fuel n` is the number of binary digits
of `n` provided `fuel ≥ log2 n + 1`. -/
def natBitsAux : Nat → Nat → Nat
  | 0, _ => 0
  | fuel + 1, n => if n = 0 then 0 else natBitsAux fuel (n / 2) + 1

/-- Number of binary digits of `n` (0 for 0). -/
def natBits (n : Nat) : Nat := natBitsAux n n

/-- First candidate for the binary exponent of a positive rational, from the
bit lengths of numerator and denominator (correct up to ±1). -/
def ilog2pC (q : ℚ) : ℤ := (natBits q.num.toNat : ℤ) - (natBits q.den : ℤ)

/-- Greatest `e` with `2 ^ e ≤ q`, for `0 < q` (junk value otherwise).
The bit-length estimate is off by at most one in each direction, so the
candidate is corrected by direct comparison. -/
def ilog2p (q : ℚ) : ℤ :=
  if (2 : ℚ) ^ (ilog2pC q + 1) ≤ q then ilog2pC q + 1
  else if (2 : ℚ) ^ ilog2pC q ≤ q then ilog2pC q
  else ilog2pC q - 1

/-- Round a rational to an integer, ties to even (the IEEE-754 default). -/
def rhe (x : ℚ) : ℤ :=
  if x - (⌊x⌋ : ℚ) < 1 / 2 then ⌊x⌋
  else if (1 : ℚ) / 2 < x - (⌊x⌋ : ℚ) then ⌊x⌋ + 1
  else if ⌊x⌋ % 2 = 0 then ⌊x⌋ else ⌊x⌋ + 1

/-- Round a positive rational to `prec` significant binary digits,
round-to-nearest, ties to even. -/
def fpRoundPos (prec : Nat) (q : ℚ) : ℚ :=
  (rhe (q * (2 : ℚ) ^ ((prec : ℤ) - 1 - ilog2p q)) : ℚ) *
    (2 : ℚ) ^ (ilog2p q - ((prec : ℤ) - 1))

/-- IEEE-754 round-to-nearest-even at `prec` significant bits (normal range;
overflow and subnormals do not occur for the values considered here).
`fpRound 24` models `f32`, `fpRound 53` models `f64`. -/
def fpRound (prec : Nat) (q : ℚ) : ℚ :=
  if q = 0 then 0 else if 0 < q then fpRoundPos prec q else -fpRoundPos prec (-q)

/-! ### Casts between floats and machine integers -/

/-- Truncation of a rational toward zero (semantics of Rust `as` from a float
to an integer type, before saturation). -/
def truncZ (q : ℚ) : ℤ := if 0 ≤ q then ⌊q⌋ else -⌊-q⌋

/-- Saturation to the `i32` range. -/
def i32Sat (v : ℤ) : ℤ := max (-(2 ^ 31)) (min (2 ^ 31 - 1) v)

/-- Rust `as i32` on a float value: truncate toward zero, saturating. -/
def ratTruncSatI32 (q : ℚ) : ℤ := i32Sat (truncZ q)

/-- Rust `as u8` on a float value: truncate toward zero, saturating to
`[0, 255]`. -/
def ratTruncSatU8 (q : ℚ) : Nat :=
  if q ≤ 0 then 0 else min 255 (⌊q⌋).toNat

/-- Saturation of a mathematical integer to the `u8` range. -/
def intSatU8 (i : ℤ) : Nat := if i ≤ 0 then 0 else min 255 i.toNat

/-! ### Curves (`src/curve.rs`)

In this file `ReadableValue::get_value` returns `i32`; child values are
modelled as `Int`.  `LinearCurve` stores, per segment, the left breakpoint
key together with the `f32` slope/intercept pair `(m, b)`. -/

/-- One iteration of the segment-building loop of `LinearCurve::new`:
from the consecutive breakpoints `low` and `high` compute
`m = (y1 - y0) as f32 / (x1 - x0) as f32` and `b = m.mul_add(-x0 as f32, y0 as f32)`
(the latter is a fused multiply-add, i.e. a single rounding). -/
def mkSeg (ρ : ℚ → ℚ) (low high : ℤ × ℤ) : ℤ × ℚ × ℚ :=
  let m : ℚ := ρ (ρ ((high.2 - low.2 : ℤ) : ℚ) / ρ ((high.1 - low.1 : ℤ) : ℚ))
  let b : ℚ := ρ (m * (-ρ ((low.1 : ℤ) : ℚ)) + ρ ((low.2 : ℤ) : ℚ))
  (low.1, m, b)

/-- The `for val in it` loop of `LinearCurve::new`: each previous/current
pair of breakpoints contributes one segment keyed by the left breakpoint.
(`BTreeMap` iteration is in ascending key order, and the keys inserted are
distinct and ascending, so the resulting map is this list in order.) -/
def buildSegs (ρ : ℚ → ℚ) : ℤ × ℤ → List (ℤ × ℤ) → List (ℤ × ℚ × ℚ)
  | _, [] => []
  | high, v :: rest => mkSeg ρ high v :: buildSegs ρ v rest

namespace LinearCurve

/-- `LinearCurve::new`.  `it.next().unwrap()` panics on an empty breakpoint
map (`none`); otherwise the segment map is built from consecutive pairs. -/
def newR (ρ : ℚ → ℚ) (steps : List (ℤ × ℤ)) : Option (List (ℤ × ℚ × ℚ)) :=
  match steps with
  | [] => none
  | first :: rest => some (buildSegs ρ first rest)

/-- The `BTreeMap::range((Unbounded, Included input)).next_back()` lookup:
the entry with the greatest key `≤ input`.  The segment list is in
ascending key order, so this is the last entry whose key is `≤ input`. -/
def lookupSeg (fs : List (ℤ × ℚ × ℚ)) (x : ℤ) : Option (ℤ × ℚ × ℚ) :=
  (fs.filter (fun s => s.1 ≤ x)).getLast?

/-- `LinearCurve::get_value`: divide the sensor's millidegrees by 1000
(`i32` division truncates toward zero), look up the segment, and return
`m.mul_add(input as f32, b) as i32` (fma, then saturating truncation);
`0` if no segment key is `≤ input`. -/
def getValueR (ρ : ℚ → ℚ) (fs : List (ℤ × ℚ × ℚ)) (sensorVal : ℤ) : ℤ :=
  let input := Int.tdiv sensorVal 1000
  match lookupSeg fs input with
  | none => 0
  | some s => ratTruncSatI32 (ρ (s.2.1 * ρ (input : ℚ) + s.2.2))

end LinearCurve

namespace AverageCurve

/-- `AverageCurve::get_value`: sum the children then divide by
`self.sensors.len() as i32`.  Rust integer division by zero panics, which is
modelled as `none`; `i32` division truncates toward zero (`Int.tdiv`). -/
def getValue (vals : List ℤ) : Option ℤ :=
  let total := vals.foldl (fun t v => t + v) 0
  if (vals.length : ℤ) = 0 then none
  else some (Int.tdiv total (vals.length : ℤ))

end AverageCurve

/-! ### Fan output stage (`src/fan.rs`, `FanSensor::update_output`)

`f64` quantities (the curve's percent demand, `start_percent`, instants) are
rationals; the demand is the scaled value of the bound curve's
`SensorValue`.  Instants are rational second counts, and
`Instant::now() - t > Duration::from_secs(10)` becomes `10 < now - t`
(the clock is monotone, so the subtraction never panics). -/

/-- The mutable fan fields that `update_output` reads and writes.
`lastVal` is the `u32` RPM reading, `minPwm`/`startPwm` the `u8`
calibration fields, `startPercent` the `f64` start threshold (20.0 by
default), `zeroPercentTime` the optional instant since which demand has
been below 10%. -/
structure FanState where
  lastVal : Nat
  minPwm : Nat
  startPwm : Nat
  startPercent : ℚ
  zeroPercentTime : Option ℚ

/-- The provisional floor chosen by `update_output` before the final PWM
formula: `min_pwm` if the fan is spinning (`is_spinning()`, i.e. scaled RPM
`≥ 1.0`) else `start_pwm`; zeroed by the low-demand guard
(`percentage < start_percent` and RPM reading `== 0.0`); zeroed by the stop
hysteresis when demand has been below 10% for more than 10 seconds. -/
def fanFloor (st : FanState) (rpm : Nat) (percentage : ℚ) (now : ℚ) : Nat :=
  let min1 : Nat := if 1 ≤ (rpm : ℚ) then st.minPwm else st.startPwm
  let min2 : Nat := if percentage < st.startPercent ∧ (rpm : ℚ) = 0 then 0 else min1
  if percentage < 10 then
    match st.zeroPercentTime with
    | some t => if 10 < now - t then 0 else min2
    | none => min2
  else min2

/-- `FanSensor::update_output`.  The fan's input is refreshed to `rpm`, the
bound curve is queried for `percentage`, the provisional floor is chosen
(spinning check, low-demand guard, stop hysteresis — the hysteresis also
updates `zero_percent_time`), and finally
`pwm_val = (percentage / 100.0).mul_add(pwm_range as f64, min_pwm as f64)`
is written as `pwm_val as u8` (saturating truncation).  `ρ` is the `f64`
rounding (division is rounded, `mul_add` is a fused multiply-add with a
single rounding; the `u8 → f64` casts are exact).  Returns the new state
and the written PWM byte. -/
def updateOutputR (ρ : ℚ → ℚ) (st : FanState) (rpm : Nat) (percentage : ℚ) (now : ℚ) :
    FanState × Nat :=
  let min1 : Nat := if 1 ≤ (rpm : ℚ) then st.minPwm else st.startPwm
  let min2 : Nat := if percentage < st.startPercent ∧ (rpm : ℚ) = 0 then 0 else min1
  let step3 : Nat × Option ℚ :=
    if percentage < 10 then
      match st.zeroPercentTime with
      | some t => (if 10 < now - t then 0 else min2, some t)
      | none => (min2, some now)
    else (min2, none)
  let pwmRange : Nat := 255 - step3.1
  let pwmVal : ℚ := ρ (ρ (percentage / 100) * (pwmRange : ℚ) + (step3.1 : ℚ))
  (⟨rpm, st.minPwm, st.startPwm, st.startPercent, step3.2⟩, ratTruncSatU8 pwmVal)

/-- The PWM byte prescribed by the specification's sentence for
`update_output` step 6, taken literally: clamp the demand to `[0, 100]`,
compute `p/100 × (255 − min) + min` exactly, round to the nearest integer,
and truncate to `u8` via a saturating cast. -/
def claimedPwmC1 (p : ℚ) (m : Nat) : Nat :=
  intSatU8 (round ((max 0 (min p 100)) / 100 * ((255 - (m : ℚ))) + (m : ℚ)))

/-! ### Calibration (`src/fan.rs`, `measure_pwm` / `measure_fan`)

A fan input behaviour is a function `env : Nat → Nat → Int` giving the
settled `i32` RPM sample read at global sample index `t` while the PWM
output is set to `pwm`; the stop flag is a function `flag : Nat → Bool`
giving the value of the shared `AtomicBool` at the `t`-th poll.  One global
sample counter is threaded through all measurements.  The settling loop of
`measure_pwm` need not terminate, so it is driven by a fuel parameter
(`fuelOut` = the loop ran longer than the given fuel); likewise the binary
search is driven by a loop fuel. -/

/-- Result of `measure_pwm`: cancelled (`None` from the stop flag), or the
settled mean, or fuel exhaustion of the model. -/
inductive MeasureResult where
  | fuelOut : MeasureResult
  | cancelled : MeasureResult
  | settled : ℤ → MeasureResult
deriving DecidableEq, Repr

/-- Maximum of `|s - m|` over a list, as computed by the source's
`max_by(...)` on absolute differences followed by `abs(max_elem - mean)`:
for a non-empty list this is exactly the maximal absolute difference. -/
def maxAbsDiff (l : List ℤ) (m : ℤ) : ℤ :=
  l.foldl (fun acc s => max acc ((s - m).natAbs : ℤ)) 0

/-- The `while max_diff > max_rpm_diff` loop of `measure_pwm`.  State:
the sample buffer (newest first; `push_front`/`pop_back`), the current
`mean` (initially 0) and `max_diff` (initially 10000).  Each iteration
polls the stop flag, reads one RPM sample, pushes it, and once the buffer
holds more than 5 samples pops the oldest and recomputes `mean` (truncated
`i32` division) and `max_diff`.  Returns the result and the next sample
index. -/
def measurePwmGo (env : Nat → Nat → ℤ) (flag : Nat → Bool) (pwm : Nat) (maxRpmDiff : ℤ) :
    Nat → Nat → List ℤ → ℤ → ℤ → MeasureResult × Nat
  | fuel, t, buf, mean, maxDiff =>
    if maxDiff ≤ maxRpmDiff then (.settled mean, t)
    else
      match fuel with
      | 0 => (.fuelOut, t)
      | fuel + 1 =>
        if flag t = false then (.cancelled, t)
        else
          let buf1 := env t pwm :: buf
          if 5 < buf1.length then
            let buf2 := buf1.dropLast
            let mean2 := Int.tdiv buf2.sum (buf2.length : ℤ)
            measurePwmGo env flag pwm maxRpmDiff fuel (t + 1) buf2 mean2
              (maxAbsDiff buf2 mean2)
          else
            measurePwmGo env flag pwm maxRpmDiff fuel (t + 1) buf1 mean maxDiff

/-- `FanSensor::measure_pwm`: set the output to `pwm`, then run the
settling loop with an empty buffer, `mean = 0`, `max_diff = 10000`. -/
def measurePwm (env : Nat → Nat → ℤ) (flag : Nat → Bool) (pwm : Nat) (maxRpmDiff : ℤ)
    (fuel t : Nat) : MeasureResult × Nat :=
  measurePwmGo env flag pwm maxRpmDiff fuel t [] 0 10000

/-- The `measure_pwm` loop as described by the specification sentence for
claim C7, taken literally: a ring buffer of the last 5 samples (the oldest
is discarded on push once the buffer is full) and the settling check is
evaluated as soon as the buffer holds at least 5 samples. -/
def measurePwmClaimGo (env : Nat → Nat → ℤ) (flag : Nat → Bool) (pwm : Nat) (maxRpmDiff : ℤ) :
    Nat → Nat → List ℤ → ℤ → ℤ → MeasureResult × Nat
  | fuel, t, buf, mean, maxDiff =>
    if maxDiff ≤ maxRpmDiff then (.settled mean, t)
    else
      match fuel with
      | 0 => (.fuelOut, t)
      | fuel + 1 =>
        if flag t = false then (.cancelled, t)
        else
          let buf1 := (env t pwm :: buf).take 5
          if 5 ≤ buf1.length then
            let mean2 := Int.tdiv buf1.sum (buf1.length : ℤ)
            measurePwmClaimGo env flag pwm maxRpmDiff fuel (t + 1) buf1 mean2
              (maxAbsDiff buf1 mean2)
          else
            measurePwmClaimGo env flag pwm maxRpmDiff fuel (t + 1) buf1 mean maxDiff

/-- Entry point for `measurePwmClaimGo` (claim-side model for C7). -/
def measurePwmClaim (env : Nat → Nat → ℤ) (flag : Nat → Bool) (pwm : Nat) (maxRpmDiff : ℤ)
    (fuel t : Nat) : MeasureResult × Nat :=
  measurePwmClaimGo env flag pwm maxRpmDiff fuel t [] 0 10000

/-- Result of the start-PWM binary-search loop: the final `max_pwm`,
`min_pwm` (loop locals), the fan's `start_pwm` field, and the next sample
index. -/
inductive BSResult where
  | fuelOut : BSResult
  | cancelled : BSResult
  | done : Nat → Nat → Nat → Nat → BSResult
deriving DecidableEq, Repr

/-- The binary-search loop of `measure_fan` (lines 181–206): while
`max_pwm - min_pwm > 1`, measure at `mid = (max_pwm - min_pwm)/2 + min_pwm`;
a non-zero settled mean sets `max_pwm := mid` and `start_pwm := mid` and then
measures at PWM 0 **discarding the result** (even a cancellation); a zero
mean sets `min_pwm := mid`; a cancelled mid measurement returns `None`.
`lfuel` bounds the number of loop iterations, `mfuel` is the fuel given to
each inner measurement. -/
def binSearchGo (env : Nat → Nat → ℤ) (flag : Nat → Bool) (maxRpmDiff : ℤ) (mfuel : Nat) :
    Nat → Nat → Nat → Nat → Nat → BSResult
  | lfuel, t, maxPwm, minPwm, startPwm =>
    if maxPwm - minPwm ≤ 1 then .done maxPwm minPwm startPwm t
    else
      match lfuel with
      | 0 => .fuelOut
      | lfuel + 1 =>
        let mid := (maxPwm - minPwm) / 2 + minPwm
        match measurePwm env flag mid maxRpmDiff mfuel t with
        | (.fuelOut, _) => .fuelOut
        | (.cancelled, _) => .cancelled
        | (.settled rpm, t1) =>
          if rpm ≠ 0 then
            match measurePwm env flag 0 maxRpmDiff mfuel t1 with
            | (.fuelOut, _) => .fuelOut
            | (_, t2) => binSearchGo env flag maxRpmDiff mfuel lfuel t2 mid minPwm mid
          else
            binSearchGo env flag maxRpmDiff mfuel lfuel t1 maxPwm mid startPwm

/-- Result of the min-PWM descent loop: the final `min_pwm` field and the
next sample index. -/
inductive DescResult where
  | fuelOut : DescResult
  | cancelled : DescResult
  | done : Nat → Nat → DescResult
deriving DecidableEq, Repr

/-- The descending `for pwm in (0..start_pwm + 3).rev()` loop of
`measure_fan` (lines 214–227): measure at each `pwm`; a zero mean breaks,
a non-zero mean records `min_pwm := pwm`, a cancellation returns `None`. -/
def descentGo (env : Nat → Nat → ℤ) (flag : Nat → Bool) (maxRpmDiff : ℤ) (mfuel : Nat) :
    List Nat → Nat → Nat → DescResult
  | [], minPwm, t => .done minPwm t
  | pwm :: rest, minPwm, t =>
    match measurePwm env flag pwm maxRpmDiff mfuel t with
    | (.fuelOut, _) => .fuelOut
    | (.cancelled, _) => .cancelled
    | (.settled rpm, t1) =>
      if rpm = 0 then .done minPwm t1
      else descentGo env flag maxRpmDiff mfuel rest pwm t1

/-- Result of `measure_fan`: `panicked` models a Rust panic (an `.unwrap()`
of a cancelled inner measurement, or the debug-mode overflow of the `u8`
addition `start_pwm + 3`), `cancelled` models returning `None`, and
`ok min_pwm start_pwm` models `Some((min_pwm, start_pwm))`. -/
inductive FanMeasureResult where
  | fuelOut : FanMeasureResult
  | panicked : FanMeasureResult
  | cancelled : FanMeasureResult
  | ok : Nat → Nat → FanMeasureResult
deriving DecidableEq, Repr

/-- `FanSensor::measure_fan`.  `startPwm0` is the fan's `start_pwm` field on
entry (from the configuration), which the binary search may overwrite.
Phases: measure at PWM 0 (`.unwrap()`: a cancellation panics); if the fan
still spins set `max_pwm = min_pwm = 0` (the search loop then exits at
once); run the binary search; set `self.min_pwm = 0`; measure at PWM 255
(`.unwrap()`); compute `start_pwm + 3` in `u8` (overflow panics in debug
builds); run the descent; return `(min_pwm, start_pwm)`. -/
def measureFan (env : Nat → Nat → ℤ) (flag : Nat → Bool) (maxRpmDiff : ℤ)
    (startPwm0 : Nat) (mfuel lfuel t0 : Nat) : FanMeasureResult :=
  match measurePwm env flag 0 maxRpmDiff mfuel t0 with
  | (.fuelOut, _) => .fuelOut
  | (.cancelled, _) => .panicked
  | (.settled rpm0, t1) =>
    let mm : Nat × Nat := if rpm0 ≠ 0 then (0, 0) else (255, 0)
    match binSearchGo env flag maxRpmDiff mfuel lfuel t1 mm.1 mm.2 startPwm0 with
    | .fuelOut => .fuelOut
    | .cancelled => .cancelled
    | .done _ _ sp t2 =>
      match measurePwm env flag 255 maxRpmDiff mfuel t2 with
      | (.fuelOut, _) => .fuelOut
      | (.cancelled, _) => .panicked
      | (.settled _, t3) =>
        if 255 < sp + 3 then .panicked
        else
          match descentGo env flag maxRpmDiff mfuel ((List.range (sp + 3)).reverse) 0 t3 with
          | .fuelOut => .fuelOut
          | .cancelled => .cancelled
          | .done minP _ => .ok minP sp

/-! ### Sample windows (used to state the settling behaviour of
`measure_pwm`) -/

/-- The RPM sample read at the `j`-th loop iteration of a measurement that
started at sample index `t0` with output `pwm`. -/
def sample (env : Nat → Nat → ℤ) (pwm t0 j : Nat) : ℤ := env (t0 + j) pwm

/-- The buffer contents after `k ≥ 5` loop iterations: the five most recent
samples, newest first. -/
def win5 (env : Nat → Nat → ℤ) (pwm t0 k : Nat) : List ℤ :=
  [sample env pwm t0 (k - 1), sample env pwm t0 (k - 2), sample env pwm t0 (k - 3),
   sample env pwm t0 (k - 4), sample env pwm t0 (k - 5)]

/-- The truncated mean of the window after `k` iterations. -/
def winMean (env : Nat → Nat → ℤ) (pwm t0 k : Nat) : ℤ :=
  Int.tdiv (win5 env pwm t0 k).sum 5

/-- The recomputed `max_diff` after `k ≥ 6` iterations. -/
def winDiff (env : Nat → Nat → ℤ) (pwm t0 k : Nat) : ℤ :=
  maxAbsDiff (win5 env pwm t0 k) (winMean env pwm t0 k)

/-! ## Theorems -/

theorem foldl_add_eq_sum (l : List ℤ) : l.foldl (fun t v => t + v) 0 = l.sum :=
  List.sum_eq_foldl.symm

/-- C2 (amended): for a non-empty child list the Average curve returns the
truncated integer mean of the children's values; the empty case is excluded
because there `get_value` divides by zero and panics. -/
theorem averageCurve_mean_nonempty (l : List ℤ) (h : l ≠ []) :
    AverageCurve.getValue l = some (Int.tdiv l.sum (l.length : ℤ)) := by
  have hlen : ((l.length : ℤ) = 0) = False := by
    simp [List.length_eq_zero, h]
  simp only [AverageCurve.getValue, hlen, if_false, foldl_add_eq_sum]

/-- Witness for `averageCurve_mean_nonempty` at the children `[10, 50, 100]`
of the source's own `test_curve_avg` scenario. -/
theorem averageCurve_mean_nonempty_witness :
    AverageCurve.getValue [10, 50, 100] =
      some (Int.tdiv ([10, 50, 100] : List ℤ).sum ((([10, 50, 100] : List ℤ).length : ℤ)) ) :=
  averageCurve_mean_nonempty [10, 50, 100] (by decide)

/-- C2 (counterexample): on an empty child list `AverageCurve::get_value`
divides by zero and panics (modelled `none`); it does not return `0`. -/
theorem averageCurve_empty_panics :
    AverageCurve.getValue ([] : List ℤ) = none ∧
    AverageCurve.getValue ([] : List ℤ) ≠ some 0 := by
  exact ⟨rfl, by decide⟩

/-- C9 (amended): an empty breakpoint map panics inside `LinearCurve::new`
(`it.next().unwrap()`), which is fatal at startup; but a one-step map is
accepted silently, producing a curve with no segments whose `get_value` is
identically `0`. -/
theorem linearCurve_new_small_steps (ρ : ℚ → ℚ) :
    LinearCurve.newR ρ ([] : List (ℤ × ℤ)) = none ∧
    ∀ p : ℤ × ℤ, LinearCurve.newR ρ [p] = some [] ∧
      ∀ v : ℤ, LinearCurve.getValueR ρ [] v = 0 :=
  ⟨rfl, fun _ => ⟨rfl, fun _ => rfl⟩⟩

/-- C9 (counterexample): a linear curve declared with the single breakpoint
`(50, 30)` is constructed successfully (no startup failure). -/
theorem linearCurve_new_one_step_silent :
    LinearCurve.newR (fpRound 24) [((50 : ℤ), (30 : ℤ))] = some [] ∧
    LinearCurve.newR (fpRound 24) [((50 : ℤ), (30 : ℤ))] ≠ none :=
  ⟨rfl, by decide⟩

theorem measurePwm_cancel_now (env : Nat → Nat → ℤ) (flag : Nat → Bool) (pwm : Nat)
    (mrd : ℤ) (mfuel t : Nat) (hm : mrd < 10000) (hf : flag t = false) (h1 : 1 ≤ mfuel) :
    measurePwm env flag pwm mrd mfuel t = (.cancelled, t) := by
  obtain ⟨m, rfl⟩ : ∃ m, mfuel = m + 1 := ⟨mfuel - 1, by omega⟩
  rw [measurePwm, measurePwmGo, if_neg (by omega), hf]
  simp

/-- C3 (amended): a cancelled (`None`) inner measurement propagates
`measure_fan` to `None` only from the binary-search midpoint measurements
and from the min-PWM descent measurements; a cancellation of the initial
PWM-0 measurement (and likewise of the PWM-255 measurement) hits an
`.unwrap()` and panics instead of returning `None`. -/
theorem measureFan_cancellation_propagation :
    (∀ (env : Nat → Nat → ℤ) (flag : Nat → Bool) (mrd : ℤ) (mfuel lfuel t maxP minP sp : Nat),
      2 ≤ maxP - minP →
      (measurePwm env flag ((maxP - minP) / 2 + minP) mrd mfuel t).1 = .cancelled →
      binSearchGo env flag mrd mfuel (lfuel + 1) t maxP minP sp = .cancelled) ∧
    (∀ (env : Nat → Nat → ℤ) (flag : Nat → Bool) (mrd : ℤ) (mfuel pwm : Nat)
      (rest : List Nat) (minP t : Nat),
      (measurePwm env flag pwm mrd mfuel t).1 = .cancelled →
      descentGo env flag mrd mfuel (pwm :: rest) minP t = .cancelled) ∧
    (∀ (env : Nat → Nat → ℤ) (flag : Nat → Bool) (mrd : ℤ) (sp mfuel lfuel t : Nat),
      mrd < 10000 → flag t = false → 1 ≤ mfuel →
      measureFan env flag mrd sp mfuel lfuel t = .panicked) := by
  refine ⟨?_, ?_, ?_⟩
  · intro env flag mrd mfuel lfuel t maxP minP sp hd hc
    rw [binSearchGo, if_neg (by omega)]
    rcases hm : measurePwm env flag ((maxP - minP) / 2 + minP) mrd mfuel t with ⟨r, t1⟩
    rw [hm] at hc
    cases r with
    | cancelled => simp [hm]
    | fuelOut => exact absurd hc (by simp)
    | settled x => exact absurd hc (by simp)
  · intro env flag mrd mfuel pwm rest minP t hc
    rw [descentGo]
    rcases hm : measurePwm env flag pwm mrd mfuel t with ⟨r, t1⟩
    rw [hm] at hc
    cases r with
    | cancelled => rfl
    | fuelOut => exact absurd hc (by simp)
    | settled x => exact absurd hc (by simp)
  · intro env flag mrd sp mfuel lfuel t hm hf h1
    rw [measureFan, measurePwm_cancel_now env flag 0 mrd mfuel t hm hf h1]

/-- C3 (counterexample): with the stop flag already cleared, the very first
inner `measure_pwm` (at PWM 0) returns `None`, and `measure_fan` panics on
its `.unwrap()` instead of returning `None`. -/
theorem measureFan_first_cancel_panics :
    measureFan (fun _ _ => 0) (fun _ => false) 0 0 10 10 0 = .panicked ∧
    measureFan (fun _ _ => 0) (fun _ => false) 0 0 10 10 0 ≠ .cancelled := by
  exact ⟨by decide, by decide⟩

/-- Witness for `measureFan_cancellation_propagation` (third conjunct) at a
concrete cancelled run. -/
theorem measureFan_cancellation_propagation_witness :
    measureFan (fun _ _ => 0) (fun _ => false) 0 0 1 1 0 = .panicked :=
  measureFan_cancellation_propagation.2.2 (fun _ _ => 0) (fun _ => false) 0 0 1 1 0
    (by decide) rfl (by decide)

/-- C5 (amended): when the binary-search loop exits normally, the interval
has width at most 1, and the fan's `start_pwm` equals the final `max_pwm`
provided some midpoint measured a non-zero settled mean; if every midpoint
measured zero, `start_pwm` keeps its previous value (and `max_pwm` is
unchanged). -/
theorem binSearch_exit_invariant :
    ∀ (env : Nat → Nat → ℤ) (flag : Nat → Bool) (mrd : ℤ) (mfuel lfuel t maxP minP sp
      m n s tf : Nat),
      binSearchGo env flag mrd mfuel lfuel t maxP minP sp = .done m n s tf →
      m - n ≤ 1 ∧ (s = m ∨ (s = sp ∧ m = maxP)) := by
  intro env flag mrd mfuel lfuel
  induction lfuel with
  | zero =>
    intro t maxP minP sp m n s tf h
    rw [binSearchGo] at h
    by_cases hd : maxP - minP ≤ 1
    · rw [if_pos hd] at h
      injection h with h1 h2 h3 h4
      subst h1; subst h2; subst h3
      exact ⟨hd, Or.inr ⟨rfl, rfl⟩⟩
    · rw [if_neg hd] at h
      exact absurd h (by simp)
  | succ lf IH =>
    intro t maxP minP sp m n s tf h
    rw [binSearchGo] at h
    by_cases hd : maxP - minP ≤ 1
    · rw [if_pos hd] at h
      injection h with h1 h2 h3 h4
      subst h1; subst h2; subst h3
      exact ⟨hd, Or.inr ⟨rfl, rfl⟩⟩
    · rw [if_neg hd] at h
      simp only at h
      rcases hm : measurePwm env flag ((maxP - minP) / 2 + minP) mrd mfuel t with ⟨r, t1⟩
      rw [hm] at h
      cases r with
      | fuelOut => exact absurd h (by simp)
      | cancelled => exact absurd h (by simp)
      | settled rpm =>
        dsimp only at h
        by_cases hr : rpm ≠ 0
        · rw [if_pos hr] at h
          rcases hm2 : measurePwm env flag 0 mrd mfuel t1 with ⟨r2, t2⟩
          rw [hm2] at h
          cases r2 with
          | fuelOut => exact absurd h (by simp)
          | cancelled =>
            rcases IH t2 ((maxP - minP) / 2 + minP) minP ((maxP - minP) / 2 + minP)
              m n s tf h with ⟨h1, h2⟩
            refine ⟨h1, Or.inl ?_⟩
            rcases h2 with h2 | ⟨h2, h3⟩
            · exact h2
            · omega
          | settled y =>
            rcases IH t2 ((maxP - minP) / 2 + minP) minP ((maxP - minP) / 2 + minP)
              m n s tf h with ⟨h1, h2⟩
            refine ⟨h1, Or.inl ?_⟩
            rcases h2 with h2 | ⟨h2, h3⟩
            · exact h2
            · omega
        · rw [if_neg hr] at h
          exact IH t1 maxP ((maxP - minP) / 2 + minP) sp m n s tf h

/-- Witness for `binSearch_exit_invariant`: a dead fan (every sample 0) with
prior `start_pwm = 7`; the loop exits with the interval `[254, 255]` and
`start_pwm` still 7. -/
theorem binSearch_exit_invariant_witness :
    (255 : Nat) - 254 ≤ 1 ∧ ((7 : Nat) = 255 ∨ ((7 : Nat) = 7 ∧ (255 : Nat) = 255)) :=
  binSearch_exit_invariant (fun _ _ => 0) (fun _ => true) 0 10 10 0 255 0 7 255 254 7 48
    (by decide)

/-- C5 (counterexample): for a fan that never spins (every settled mean 0),
the binary search exits with `hi = 255` but the fan's `start_pwm` keeps its
prior value 0 instead of being set to the final `hi`. -/
theorem binSearch_dead_fan_startPwm :
    binSearchGo (fun _ _ => 0) (fun _ => true) 0 10 10 0 255 0 0 = .done 255 254 0 48 ∧
    (0 : Nat) ≠ 255 :=
  ⟨by decide, by decide⟩

theorem descentGo_min_mem (env : Nat → Nat → ℤ) (flag : Nat → Bool) (mrd : ℤ) (mfuel : Nat) :
    ∀ (pwms : List Nat) (acc t m tf : Nat),
      descentGo env flag mrd mfuel pwms acc t = .done m tf → m = acc ∨ m ∈ pwms := by
  intro pwms
  induction pwms with
  | nil =>
    intro acc t m tf h
    rw [descentGo] at h
    injection h with h1 h2
    exact Or.inl h1.symm
  | cons pwm rest IH =>
    intro acc t m tf h
    rw [descentGo] at h
    rcases hm : measurePwm env flag pwm mrd mfuel t with ⟨r, t1⟩
    rw [hm] at h
    cases r with
    | fuelOut => exact absurd h (by simp)
    | cancelled => exact absurd h (by simp)
    | settled rpm =>
      dsimp only at h
      by_cases hr : rpm = 0
      · rw [if_pos hr] at h
        injection h with h1 h2
        exact Or.inl h1.symm
      · rw [if_neg hr] at h
        rcases IH pwm t1 m tf h with h1 | h1
        · exact Or.inr (h1 ▸ List.mem_cons_self pwm rest)
        · exact Or.inr (List.mem_cons_of_mem pwm h1)

/-- C8 (amended): whenever `measure_fan` returns `Some((min_pwm, start_pwm))`,
the returned values satisfy `min_pwm ≤ start_pwm + 2` (the descent starts at
`start_pwm + 2`, so for an adversarial input behaviour `min_pwm` can exceed
`start_pwm` by up to 2). -/
theorem measureFan_ok_min_le :
    ∀ (env : Nat → Nat → ℤ) (flag : Nat → Bool) (mrd : ℤ) (sp0 mfuel lfuel t m s : Nat),
      measureFan env flag mrd sp0 mfuel lfuel t = .ok m s → m ≤ s + 2 := by
  intro env flag mrd sp0 mfuel lfuel t m s h
  rw [measureFan] at h
  rcases hm0 : measurePwm env flag 0 mrd mfuel t with ⟨r0, t1⟩
  rw [hm0] at h
  cases r0 with
  | fuelOut => exact absurd h (by simp)
  | cancelled => exact absurd h (by simp)
  | settled rpm0 =>
    dsimp only at h
    cases hbs : binSearchGo env flag mrd mfuel lfuel t1
        (if rpm0 ≠ 0 then ((0 : Nat), (0 : Nat)) else (255, 0)).1
        (if rpm0 ≠ 0 then ((0 : Nat), (0 : Nat)) else (255, 0)).2 sp0 with
    | fuelOut => rw [hbs] at h; exact absurd h (by simp)
    | cancelled => rw [hbs] at h; exact absurd h (by simp)
    | done a b sp t2 =>
      rw [hbs] at h
      dsimp only at h
      rcases hm255 : measurePwm env flag 255 mrd mfuel t2 with ⟨r255, t3⟩
      rw [hm255] at h
      cases r255 with
      | fuelOut => exact absurd h (by simp)
      | cancelled => exact absurd h (by simp)
      | settled x =>
        dsimp only at h
        by_cases hov : 255 < sp + 3
        · rw [if_pos hov] at h
          exact absurd h (by simp)
        · rw [if_neg hov] at h
          cases hd : descentGo env flag mrd mfuel ((List.range (sp + 3)).reverse) 0 t3 with
          | fuelOut => rw [hd] at h; exact absurd h (by simp)
          | cancelled => rw [hd] at h; exact absurd h (by simp)
          | done minP tf =>
            rw [hd] at h
            dsimp only at h
            injection h with h1 h2
            rcases descentGo_min_mem env flag mrd mfuel _ 0 t3 minP tf hd with h3 | h3
            · omega
            · rw [List.mem_reverse, List.mem_range] at h3
              omega

set_option maxHeartbeats 8000000 in
/-- Witness for `measureFan_ok_min_le` at a run returning `Some((2, 0))`. -/
theorem measureFan_ok_min_le_witness : (2 : Nat) ≤ 0 + 2 :=
  measureFan_ok_min_le (fun _ p => if p = 2 then 7 else 0) (fun _ => true) 0 0 6 20 0 2 0
    (by decide)

set_option maxHeartbeats 8000000 in
/-- C8 (counterexample): an input behaviour that reads 0 RPM everywhere
except at PWM 2 makes `measure_fan` return `Some((2, 0))`, violating
`min_pwm ≤ start_pwm`. -/
theorem measureFan_min_gt_start :
    measureFan (fun _ p => if p = 2 then 7 else 0) (fun _ => true) 0 0 10 20 0 = .ok 2 0 ∧
    ¬ (2 : Nat) ≤ 0 :=
  ⟨by decide, by decide⟩

/-- C10: if the fan's `start_pwm` field is at least 253 when the min-PWM
descent begins (here: a never-stopping fan, so the binary search leaves the
configured `start_pwm` untouched), the `u8` addition `start_pwm + 3`
overflows and `measure_fan` panics: it is not total over all `u8`
`start_pwm` values. -/
theorem measureFan_overflow_panics :
    ∀ sp : Nat, 253 ≤ sp →
      measureFan (fun _ _ => (100 : ℤ)) (fun _ => true) 0 sp 10 10 0 = .panicked := by
  intro sp hsp
  have h1 : measurePwm (fun _ _ => (100 : ℤ)) (fun _ => true) 0 0 10 0 = (.settled 100, 6) := by
    decide
  have h2 : binSearchGo (fun _ _ => (100 : ℤ)) (fun _ => true) 0 10 10 6 0 0 sp =
      .done 0 0 sp 6 := by
    rw [binSearchGo, if_pos (by omega)]
  have h3 : measurePwm (fun _ _ => (100 : ℤ)) (fun _ => true) 255 0 10 6 =
      (.settled 100, 12) := by decide
  rw [measureFan, h1]
  simp only [ne_eq, OfNat.ofNat_ne_zero, not_false_eq_true, if_true, ite_true]
  rw [h2]
  dsimp only
  rw [h3]
  dsimp only
  rw [if_pos (by omega)]

/-- Witness for `measureFan_overflow_panics` at `start_pwm = 253`. -/
theorem measureFan_overflow_panics_witness :
    measureFan (fun _ _ => (100 : ℤ)) (fun _ => true) 0 253 10 10 0 = .panicked :=
  measureFan_overflow_panics 253 (by decide)

theorem updateOutputR_snd (ρ : ℚ → ℚ) (st : FanState) (rpm : Nat) (percentage now : ℚ) :
    (updateOutputR ρ st rpm percentage now).2 =
      ratTruncSatU8 (ρ (ρ (percentage / 100) *
        ((255 - fanFloor st rpm percentage now : Nat) : ℚ) +
        (fanFloor st rpm percentage now : ℚ))) := by
  rw [updateOutputR, fanFloor]
  cases h : st.zeroPercentTime <;> dsimp only <;> split_ifs <;> rfl

theorem fanFloor_cases (st : FanState) (rpm : Nat) (p now : ℚ) :
    fanFloor st rpm p now = 0 ∨ fanFloor st rpm p now = st.minPwm ∨
      fanFloor st rpm p now = st.startPwm := by
  rw [fanFloor]
  cases st.zeroPercentTime <;> dsimp only <;> split_ifs <;> simp

theorem ratTruncSatU8_le (q : ℚ) : ratTruncSatU8 q ≤ 255 := by
  rw [ratTruncSatU8]
  split_ifs
  · omega
  · exact min_le_left _ _

theorem le_ratTruncSatU8 (m : Nat) (q : ℚ) (hm : m ≤ 255) (h : (m : ℚ) ≤ q) :
    m ≤ ratTruncSatU8 q := by
  rw [ratTruncSatU8]
  split_ifs with h0
  · have hm0 : (m : ℚ) ≤ 0 := le_trans h h0
    have : m = 0 := by exact_mod_cast Nat.cast_nonpos.mp hm0
    omega
  · refine Nat.le_min.mpr ⟨hm, ?_⟩
    have h1 : (m : ℤ) ≤ ⌊q⌋ := Int.le_floor.mpr (by push_cast; exact h)
    calc m = ((m : ℤ)).toNat := rfl
    _ ≤ (⌊q⌋).toNat := Int.toNat_le_toNat h1

/-- C1 (amended): the PWM byte written by `update_output` is the saturating
truncation (toward zero, not rounding to nearest) of the `f64` evaluation of
`p/100 × (255 − min) + min`, where `p` is the bound curve's demand **not**
clamped to `[0, 100]` and `min` is the provisional floor chosen by the
spinning check, the low-demand guard and the stop hysteresis.  `ρ` is an
arbitrary rounding map covering both exact arithmetic and IEEE `f64`. -/
theorem updateOutput_pwm_truncates (ρ : ℚ → ℚ) (st : FanState) (rpm : Nat)
    (p now : ℚ) :
    (updateOutputR ρ st rpm p now).2 =
      ratTruncSatU8 (ρ (ρ (p / 100) * ((255 - fanFloor st rpm p now : Nat) : ℚ) +
        (fanFloor st rpm p now : ℚ))) :=
  updateOutputR_snd ρ st rpm p now

/-- C4 (amended): the PWM byte written by `update_output` is always `≤ 255`,
and for non-negative demand it never falls below the provisional floor chosen
by the hysteresis rules — in particular it can lie strictly between 0 and
`min_pwm` only when the low-demand guard or the expired zero-percent latch
has replaced the floor by 0.  `ρ` is any rounding map that is monotone,
exact on the naturals up to 255, and preserves non-negativity (IEEE
round-to-nearest and exact arithmetic both qualify). -/
theorem updateOutput_pwm_bounds (ρ : ℚ → ℚ) (hmono : Monotone ρ)
    (hnat : ∀ n : Nat, n ≤ 255 → ρ (n : ℚ) = n) (hsgn : ∀ q : ℚ, 0 ≤ q → 0 ≤ ρ q)
    (st : FanState) (rpm : Nat) (p now : ℚ) (hp : 0 ≤ p)
    (hmin : st.minPwm ≤ 255) (hstart : st.startPwm ≤ 255) :
    (updateOutputR ρ st rpm p now).2 ≤ 255 ∧
      fanFloor st rpm p now ≤ (updateOutputR ρ st rpm p now).2 := by
  rw [updateOutputR_snd ρ st rpm p now]
  refine ⟨ratTruncSatU8_le _, ?_⟩
  have hm : fanFloor st rpm p now ≤ 255 := by
    rcases fanFloor_cases st rpm p now with h | h | h <;> omega
  refine le_ratTruncSatU8 _ _ hm ?_
  have h1 : (0 : ℚ) ≤ ρ (p / 100) := hsgn _ (by positivity)
  have h2 : (fanFloor st rpm p now : ℚ) ≤
      ρ (p / 100) * ((255 - fanFloor st rpm p now : Nat) : ℚ) +
        (fanFloor st rpm p now : ℚ) := by
    have : (0 : ℚ) ≤ ρ (p / 100) * ((255 - fanFloor st rpm p now : Nat) : ℚ) :=
      mul_nonneg h1 (by positivity)
    linarith
  calc (fanFloor st rpm p now : ℚ)
      = ρ ((fanFloor st rpm p now : ℚ)) := (hnat _ hm).symm
    _ ≤ ρ (ρ (p / 100) * ((255 - fanFloor st rpm p now : Nat) : ℚ) +
        (fanFloor st rpm p now : ℚ)) := hmono h2

/-- Witness for `updateOutput_pwm_bounds` with exact arithmetic, a spinning
fan (`min_pwm = 21`, `start_pwm = 42`, RPM 4242) and demand 50%. -/
theorem updateOutput_pwm_bounds_witness :
    (updateOutputR id ⟨0, 21, 42, 20, none⟩ 4242 50 0).2 ≤ 255 ∧
      fanFloor ⟨0, 21, 42, 20, none⟩ 4242 50 0 ≤
        (updateOutputR id ⟨0, 21, 42, 20, none⟩ 4242 50 0).2 :=
  updateOutput_pwm_bounds id monotone_id (fun _ _ => rfl) (fun _ h => h)
    ⟨0, 21, 42, 20, none⟩ 4242 50 0 (by norm_num) (by norm_num) (by norm_num)

theorem fpRound_zero (prec : Nat) : fpRound prec 0 = 0 := by
  rw [fpRound, if_pos rfl]

theorem fpRoundPos_eq (prec : Nat) (q r : ℚ) (e z : ℤ)
    (he : ilog2p q = e) (hz : rhe (q * (2 : ℚ) ^ ((prec : ℤ) - 1 - e)) = z)
    (hr : (z : ℚ) * (2 : ℚ) ^ (e - ((prec : ℤ) - 1)) = r) :
    fpRoundPos prec q = r := by
  rw [fpRoundPos, he, hz, hr]

theorem fpRound_pos_eq (prec : Nat) (q r : ℚ) (h0 : 0 < q)
    (hp : fpRoundPos prec q = r) : fpRound prec q = r := by
  rw [fpRound, if_neg (ne_of_gt h0), if_pos h0, hp]

theorem fpRound_neg_eq (prec : Nat) (q qp r : ℚ) (h0 : q < 0) (hqp : -q = qp)
    (hp : fpRoundPos prec qp = r) : fpRound prec q = -r := by
  rw [fpRound, if_neg (ne_of_lt h0), if_neg (not_lt.mpr (le_of_lt h0)), hqp, hp]

theorem fp53_one_div_hundred :
    fpRound 53 ((1 : ℚ) / 100) = 5764607523034235 / 576460752303423488 := by
  refine fpRound_pos_eq 53 _ _ (by norm_num) (fpRoundPos_eq 53 _ _ (-7) 5764607523034235 ?_ ?_ ?_)
  · have hc : ilog2pC ((1 : ℚ) / 100) = -6 := by
      rw [ilog2pC, show ((1 : ℚ) / 100).num.toNat = 1 by norm_num,
        show ((1 : ℚ) / 100).den = 100 by norm_num,
        show natBits 1 = 1 from by decide, show natBits 100 = 7 from by decide]
      decide
    rw [ilog2p, hc]
    norm_num
  · rw [rhe]
    norm_num
  · norm_num

theorem fp53_demand_one_pwm :
    fpRound 53 ((5764607523034235 : ℚ) / 576460752303423488 * 255 + 0) =
      5742089524897383 / 2251799813685248 := by
  refine fpRound_pos_eq 53 _ _ (by norm_num)
    (fpRoundPos_eq 53 _ _ 1 5742089524897383 ?_ ?_ ?_)
  · have hc : ilog2pC ((5764607523034235 : ℚ) / 576460752303423488 * 255 + 0) = 1 := by
      rw [ilog2pC,
        show ((5764607523034235 : ℚ) / 576460752303423488 * 255 + 0).num.toNat =
          1469974918373729925 by
            rw [show ((5764607523034235 : ℚ) / 576460752303423488 * 255 + 0).num =
              1469974918373729925 by norm_num]
            simp,
        show ((5764607523034235 : ℚ) / 576460752303423488 * 255 + 0).den =
          576460752303423488 by norm_num,
        show natBits 1469974918373729925 = 61 from by decide,
        show natBits 576460752303423488 = 60 from by decide]
      decide
    rw [ilog2p, hc]
    norm_num
  · rw [rhe]
    norm_num
  · norm_num

theorem fp53_neg_five_div_hundred :
    fpRound 53 ((-5 : ℚ) / 100) = -(3602879701896397 / 72057594037927936) := by
  have hc : ilog2pC ((5 : ℚ) / 100) = -4 := by
    rw [ilog2pC, show ((5 : ℚ) / 100).num.toNat = 1 by norm_num,
      show ((5 : ℚ) / 100).den = 20 by norm_num,
      show natBits 1 = 1 from by decide, show natBits 20 = 5 from by decide]
    decide
  refine fpRound_neg_eq 53 _ ((5 : ℚ) / 100) (3602879701896397 / 72057594037927936)
    (by norm_num) (by norm_num)
    (fpRoundPos_eq 53 ((5 : ℚ) / 100) _ (-5) 7205759403792794 ?_ ?_ ?_)
  · rw [ilog2p, hc]
    norm_num
  · rw [rhe]
    norm_num
  · norm_num

theorem fp53_neg_demand_pwm :
    fpRound 53 ((335067812276364879 : ℚ) / 36028797018963968) =
      5235434566818201 / 562949953421312 := by
  have hc : ilog2pC ((335067812276364879 : ℚ) / 36028797018963968) = 3 := by
    rw [ilog2pC,
      show ((335067812276364879 : ℚ) / 36028797018963968).num.toNat =
        335067812276364879 by norm_num; decide,
      show ((335067812276364879 : ℚ) / 36028797018963968).den = 36028797018963968 by
        norm_num,
      show natBits 335067812276364879 = 59 from by decide,
      show natBits 36028797018963968 = 56 from by decide]
    decide
  refine fpRound_pos_eq 53 _ _ (by norm_num)
    (fpRoundPos_eq 53 ((335067812276364879 : ℚ) / 36028797018963968) _ 3
      5235434566818201 ?_ ?_ ?_)
  · rw [ilog2p, hc]
    norm_num
  · rw [rhe]
    norm_num
  · norm_num

/-- C1 (counterexample): two divergences from the claimed formula.  With the
fan spinning, `min_pwm = start_pwm = 0` and demand 1%, the code writes
`⌊2.55⌋ = 2` (the `as u8` cast truncates) while the claimed
`round(p/100 × 255 + 0)` prescribes 3.  And with a spinning fan,
`min_pwm = 21` and demand −5% (floor 21), the code writes
`trunc(21 − 11.7) = 9` while the claimed formula — which clamps the demand
to `[0, 100]` first — prescribes 21: the code does not clamp the demand. -/
theorem updateOutput_pwm_not_rounded :
    ((updateOutputR (fpRound 53) ⟨0, 0, 0, 20, none⟩ 100 1 0).2 = 2 ∧
      claimedPwmC1 1 (fanFloor ⟨0, 0, 0, 20, none⟩ 100 1 0) = 3) ∧
    ((updateOutputR (fpRound 53) ⟨0, 21, 42, 20, none⟩ 4242 (-5) 0).2 = 9 ∧
      claimedPwmC1 (-5) (fanFloor ⟨0, 21, 42, 20, none⟩ 4242 (-5) 0) = 21) := by
  have hf : fanFloor ⟨0, 0, 0, 20, none⟩ 100 1 0 = 0 := by
    rw [fanFloor]
    norm_num
  have hf2 : fanFloor ⟨0, 21, 42, 20, none⟩ 4242 (-5) 0 = 21 := by
    rw [fanFloor]
    norm_num
  refine ⟨⟨?_, ?_⟩, ?_, ?_⟩
  · rw [updateOutputR_snd, hf, fp53_one_div_hundred,
      show (5764607523034235 : ℚ) / 576460752303423488 * ((255 - 0 : Nat) : ℚ) +
        ((0 : Nat) : ℚ) = (5764607523034235 : ℚ) / 576460752303423488 * 255 + 0 from
        by norm_num,
      fp53_demand_one_pwm, ratTruncSatU8]
    norm_num [Int.toNat_ofNat]
    decide
  · rw [hf, claimedPwmC1, intSatU8]
    norm_num [round_eq, Int.toNat_ofNat]
    decide
  · rw [updateOutputR_snd, hf2, fp53_neg_five_div_hundred,
      show -((3602879701896397 : ℚ) / 72057594037927936) * ((255 - 21 : Nat) : ℚ) +
        ((21 : Nat) : ℚ) = (335067812276364879 : ℚ) / 36028797018963968 from
        by norm_num,
      fp53_neg_demand_pwm, ratTruncSatU8]
    norm_num [Int.toNat_ofNat]
    decide
  · rw [hf2, claimedPwmC1, intSatU8]
    norm_num [round_eq, Int.toNat_ofNat]
    decide

/-- C4 (counterexample): a stopped fan with `min_pwm = 21`, `start_pwm = 42`
and demand 1% triggers the low-demand guard (floor 0) and the code writes
PWM 2 — a value that is below `min_pwm` yet non-zero. -/
theorem updateOutput_pwm_below_min_nonzero :
    (updateOutputR (fpRound 53) ⟨0, 21, 42, 20, none⟩ 0 1 0).2 = 2 ∧
    (2 : Nat) ≠ 0 ∧ (2 : Nat) < 21 := by
  have hf : fanFloor ⟨0, 21, 42, 20, none⟩ 0 1 0 = 0 := by
    rw [fanFloor]
    norm_num
  refine ⟨?_, by norm_num, by norm_num⟩
  rw [updateOutputR_snd, hf, fp53_one_div_hundred,
    show (5764607523034235 : ℚ) / 576460752303423488 * ((255 - 0 : Nat) : ℚ) +
      ((0 : Nat) : ℚ) = (5764607523034235 : ℚ) / 576460752303423488 * 255 + 0 from
      by norm_num,
    fp53_demand_one_pwm, ratTruncSatU8]
  norm_num [Int.toNat_ofNat]
  decide

/-! ### Linear-curve breakpoint law (C6) -/

theorem tdiv_thousand (a : ℤ) : Int.tdiv (1000 * a) 1000 = a :=
  Int.mul_tdiv_cancel_left a (by norm_num)

theorem getValueR_eq (ρ : ℚ → ℚ) (fs : List (ℤ × ℚ × ℚ)) (v : ℤ) :
    LinearCurve.getValueR ρ fs v =
      match LinearCurve.lookupSeg fs (Int.tdiv v 1000) with
      | none => 0
      | some s => ratTruncSatI32 (ρ (s.2.1 * ρ ((Int.tdiv v 1000 : ℤ) : ℚ) + s.2.2)) := rfl

theorem buildSegs_key_mem (ρ : ℚ → ℚ) :
    ∀ (l : List (ℤ × ℤ)) (a : ℤ × ℤ) (s : ℤ × ℚ × ℚ), s ∈ buildSegs ρ a l →
      s.1 = a.1 ∨ s.1 ∈ l.map Prod.fst := by
  intro l
  induction l with
  | nil => intro a s h; cases h
  | cons q rest IH =>
    intro a s h
    rw [buildSegs] at h
    rcases List.mem_cons.mp h with h1 | h1
    · exact Or.inl (by rw [h1]; rfl)
    · rcases IH q s h1 with h2 | h2
      · right
        rw [List.map_cons, h2]
        exact List.mem_cons_self _ _
      · right
        rw [List.map_cons]
        exact List.mem_cons_of_mem _ h2

theorem lookupSeg_head (x : ℤ) (s : ℤ × ℚ × ℚ) (l : List (ℤ × ℚ × ℚ))
    (hs : s.1 ≤ x) (hl : ∀ u ∈ l, x < u.1) :
    LinearCurve.lookupSeg (s :: l) x = some s := by
  rw [LinearCurve.lookupSeg, List.filter_cons]
  have hfl : l.filter (fun u => decide (u.1 ≤ x)) = [] := by
    rw [List.filter_eq_nil_iff]
    intro u hu
    simpa using not_le.mpr (hl u hu)
  rw [if_pos (by simpa using hs), hfl]
  rfl

theorem lookupSeg_cons_of_ne_nil (x : ℤ) (s : ℤ × ℚ × ℚ) (l : List (ℤ × ℚ × ℚ))
    (hne : l.filter (fun u => decide (u.1 ≤ x)) ≠ []) :
    LinearCurve.lookupSeg (s :: l) x = LinearCurve.lookupSeg l x := by
  rw [LinearCurve.lookupSeg, LinearCurve.lookupSeg, List.filter_cons]
  split_ifs with h
  · cases hfl : l.filter (fun u => decide (u.1 ≤ x)) with
    | nil => exact absurd hfl hne
    | cons b bs => rw [List.getLast?_cons_cons]
  · rfl

theorem mkSeg_eval_left (p q : ℤ × ℤ) :
    (mkSeg id p q).2.1 * ((p.1 : ℤ) : ℚ) + (mkSeg id p q).2.2 = ((p.2 : ℤ) : ℚ) := by
  rw [mkSeg]
  dsimp only [id]
  ring

theorem mkSeg_eval_right (p q : ℤ × ℤ) (hne : p.1 ≠ q.1) :
    (mkSeg id p q).2.1 * ((q.1 : ℤ) : ℚ) + (mkSeg id p q).2.2 = ((q.2 : ℤ) : ℚ) := by
  rw [mkSeg]
  dsimp only [id]
  have hz : ((q.1 : ℚ)) - ((p.1 : ℚ)) ≠ 0 := by
    rw [sub_ne_zero]
    exact fun hq => hne (by exact_mod_cast hq.symm)
  have h2 : (((q.2 : ℚ)) - p.2) / (((q.1 : ℚ)) - p.1) * (((q.1 : ℚ)) - p.1) =
      ((q.2 : ℚ)) - p.2 := div_mul_cancel₀ _ hz
  push_cast
  linear_combination h2

theorem ratTruncSatI32_intCast (z : ℤ) (h1 : -(2 ^ 31) ≤ z) (h2 : z ≤ 2 ^ 31 - 1) :
    ratTruncSatI32 ((z : ℚ)) = z := by
  rw [ratTruncSatI32, truncZ]
  split_ifs with h
  · rw [Int.floor_intCast, i32Sat, min_eq_right h2, max_eq_right h1]
  · rw [← Int.cast_neg, Int.floor_intCast, neg_neg, i32Sat, min_eq_right h2, max_eq_right h1]

theorem linearCurve_breakpoint_aux :
    ∀ (rest : List (ℤ × ℤ)) (first : ℤ × ℤ),
      List.Pairwise (fun a b : ℤ × ℤ => a.1 < b.1) (first :: rest) →
      rest ≠ [] →
      (∀ u ∈ first :: rest, -(2 ^ 31) ≤ u.2 ∧ u.2 ≤ 2 ^ 31 - 1) →
      ∀ p ∈ first :: rest,
        LinearCurve.getValueR id (buildSegs id first rest) (1000 * p.1) = p.2 := by
  intro rest
  induction rest with
  | nil => intro first _ hne _ _ _; exact absurd rfl hne
  | cons q rest' IH =>
    intro first hpw _ hrange p hp
    have hpw1 : ∀ a ∈ q :: rest', first.1 < a.1 := (List.pairwise_cons.mp hpw).1
    have hpw2 : List.Pairwise (fun a b : ℤ × ℤ => a.1 < b.1) (q :: rest') :=
      (List.pairwise_cons.mp hpw).2
    rw [getValueR_eq, tdiv_thousand]
    rcases List.mem_cons.mp hp with rfl | hp1
    · -- p = first: the lookup returns the first segment, which interpolates
      -- exactly at its left endpoint.
      have hlk : LinearCurve.lookupSeg (buildSegs id p (q :: rest')) p.1 =
          some (mkSeg id p q) := by
        rw [buildSegs]
        apply lookupSeg_head
        · exact le_refl _
        · intro u hu
          rcases buildSegs_key_mem id rest' q u hu with h1 | h1
          · rw [h1]
            exact hpw1 q (List.mem_cons_self _ _)
          · obtain ⟨w, hw, hw2⟩ := List.mem_map.mp h1
            rw [← hw2]
            exact hpw1 w (List.mem_cons_of_mem _ hw)
      rw [hlk]
      dsimp only [id]
      rw [mkSeg_eval_left]
      exact ratTruncSatI32_intCast p.2 (hrange p (List.mem_cons_self _ _)).1
        (hrange p (List.mem_cons_self _ _)).2
    · cases rest' with
      | nil =>
        -- two breakpoints; p is the last one, interpolated through the only
        -- segment's right endpoint.
        rcases List.mem_cons.mp hp1 with rfl | h1
        · have hlk : LinearCurve.lookupSeg (buildSegs id first [p]) p.1 =
              some (mkSeg id first p) := by
            rw [buildSegs, buildSegs]
            apply lookupSeg_head
            · exact le_of_lt (hpw1 p (List.mem_cons_self _ _))
            · intro u hu; cases hu
          rw [hlk]
          dsimp only [id]
          rw [mkSeg_eval_right first p (ne_of_lt (hpw1 p (List.mem_cons_self _ _)))]
          exact ratTruncSatI32_intCast p.2
            (hrange p (List.mem_cons_of_mem _ (List.mem_cons_self _ _))).1
            (hrange p (List.mem_cons_of_mem _ (List.mem_cons_self _ _))).2
        · cases h1
      | cons q2 rest'' =>
        -- at least three breakpoints: drop the first segment and recurse.
        have hq1 : q.1 ≤ p.1 := by
          rcases List.mem_cons.mp hp1 with rfl | h1
          · exact le_refl _
          · exact le_of_lt ((List.pairwise_cons.mp hpw2).1 p h1)
        have hred : LinearCurve.lookupSeg (buildSegs id first (q :: q2 :: rest'')) p.1 =
            LinearCurve.lookupSeg (buildSegs id q (q2 :: rest'')) p.1 := by
          rw [buildSegs]
          apply lookupSeg_cons_of_ne_nil
          intro hnil
          have hmem : mkSeg id q q2 ∈ buildSegs id q (q2 :: rest'') := by
            rw [buildSegs]
            exact List.mem_cons_self _ _
          have hin : mkSeg id q q2 ∈
              (buildSegs id q (q2 :: rest'')).filter (fun u => decide (u.1 ≤ p.1)) :=
            List.mem_filter.mpr ⟨hmem, by simpa using hq1⟩
          rw [hnil] at hin
          cases hin
        rw [hred]
        have hIH := IH q hpw2 (by simp)
          (fun u hu => hrange u (List.mem_cons_of_mem _ hu)) p hp1
        rw [getValueR_eq, tdiv_thousand] at hIH
        exact hIH

/-- C6 (amended): in exact (real) arithmetic the linear curve reproduces
every breakpoint: if the referenced source reads `1000·xᵢ` millidegrees,
`get_value` returns exactly `yᵢ`.  In the source the slopes and intercepts
are computed and evaluated in `f32`, whose rounding can perturb the result
at a breakpoint (see the counterexample), so the law holds for the
idealised exact evaluation. -/
theorem linearCurve_breakpoint_exact (steps : List (ℤ × ℤ)) (segs : List (ℤ × ℚ × ℚ))
    (hnew : LinearCurve.newR id steps = some segs)
    (hsort : List.Pairwise (fun a b : ℤ × ℤ => a.1 < b.1) steps)
    (hlen : 2 ≤ steps.length)
    (hrange : ∀ u ∈ steps, -(2 ^ 31) ≤ u.2 ∧ u.2 ≤ 2 ^ 31 - 1) :
    ∀ p ∈ steps, LinearCurve.getValueR id segs (1000 * p.1) = p.2 := by
  cases steps with
  | nil => cases hnew
  | cons first rest =>
    have hsegs : segs = buildSegs id first rest := by
      rw [LinearCurve.newR] at hnew
      injection hnew with h
      exact h.symm
    subst hsegs
    intro p hp
    apply linearCurve_breakpoint_aux rest first hsort ?_ hrange p hp
    intro hni
    rw [hni] at hlen
    simp at hlen

theorem fp24_neg99 : fpRound 24 (-99 : ℚ) = -99 := by
  have hc : ilog2pC (99 : ℚ) = 6 := by
    rw [ilog2pC, show ((99 : ℚ)).num.toNat = 99 by norm_num; decide,
      show ((99 : ℚ)).den = 1 by norm_num,
      show natBits 99 = 7 from by decide, show natBits 1 = 1 from by decide]
    decide
  refine fpRound_neg_eq 24 _ 99 99 (by norm_num) (by norm_num)
    (fpRoundPos_eq 24 99 99 6 12976128 ?_ ?_ ?_)
  · rw [ilog2p, hc]
    norm_num
  · rw [rhe]
    norm_num
  · norm_num

theorem fp24_seven : fpRound 24 (7 : ℚ) = 7 := by
  have hc : ilog2pC (7 : ℚ) = 2 := by
    rw [ilog2pC, show ((7 : ℚ)).num.toNat = 7 by norm_num; decide,
      show ((7 : ℚ)).den = 1 by norm_num,
      show natBits 7 = 3 from by decide, show natBits 1 = 1 from by decide]
    decide
  refine fpRound_pos_eq 24 _ _ (by norm_num) (fpRoundPos_eq 24 7 7 2 14680064 ?_ ?_ ?_)
  · rw [ilog2p, hc]
    norm_num
  · rw [rhe]
    norm_num
  · norm_num

theorem fp24_hundred : fpRound 24 (100 : ℚ) = 100 := by
  have hc : ilog2pC (100 : ℚ) = 6 := by
    rw [ilog2pC, show ((100 : ℚ)).num.toNat = 100 by norm_num; decide,
      show ((100 : ℚ)).den = 1 by norm_num,
      show natBits 100 = 7 from by decide, show natBits 1 = 1 from by decide]
    decide
  refine fpRound_pos_eq 24 _ _ (by norm_num)
    (fpRoundPos_eq 24 100 100 6 13107200 ?_ ?_ ?_)
  · rw [ilog2p, hc]
    norm_num
  · rw [rhe]
    norm_num
  · norm_num

theorem fp24_m99d7 : fpRound 24 ((-99 : ℚ) / 7) = -(14829861 / 1048576) := by
  have hc : ilog2pC ((99 : ℚ) / 7) = 4 := by
    rw [ilog2pC, show ((99 : ℚ) / 7).num.toNat = 99 by norm_num; decide,
      show ((99 : ℚ) / 7).den = 7 by norm_num,
      show natBits 99 = 7 from by decide, show natBits 7 = 3 from by decide]
    decide
  refine fpRound_neg_eq 24 _ ((99 : ℚ) / 7) (14829861 / 1048576) (by norm_num) (by norm_num)
    (fpRoundPos_eq 24 ((99 : ℚ) / 7) _ 3 14829861 ?_ ?_ ?_)
  · rw [ilog2p, hc]
    norm_num
  · rw [rhe]
    norm_num
  · norm_num

theorem fp24_off_value : fpRound 24 ((1048573 : ℚ) / 1048576) = 1048573 / 1048576 := by
  have hc : ilog2pC ((1048573 : ℚ) / 1048576) = -1 := by
    rw [ilog2pC, show ((1048573 : ℚ) / 1048576).num.toNat = 1048573 by norm_num; decide,
      show ((1048573 : ℚ) / 1048576).den = 1048576 by norm_num,
      show natBits 1048573 = 20 from by decide, show natBits 1048576 = 21 from by decide]
    decide
  refine fpRound_pos_eq 24 _ _ (by norm_num)
    (fpRoundPos_eq 24 ((1048573 : ℚ) / 1048576) _ (-1) 16777168 ?_ ?_ ?_)
  · rw [ilog2p, hc]
    norm_num
  · rw [rhe]
    norm_num
  · norm_num

theorem mkSeg_f32_smoking : mkSeg (fpRound 24) ((0 : ℤ), (100 : ℤ)) ((7 : ℤ), (1 : ℤ)) =
    ((0 : ℤ), -(14829861 / 1048576 : ℚ), (100 : ℚ)) := by
  rw [mkSeg]
  dsimp only
  rw [show ((1 - 100 : ℤ) : ℚ) = (-99 : ℚ) from by norm_num,
    show ((7 - 0 : ℤ) : ℚ) = (7 : ℚ) from by norm_num,
    show (((0 : ℤ)) : ℚ) = (0 : ℚ) from by norm_num,
    show (((100 : ℤ)) : ℚ) = (100 : ℚ) from by norm_num,
    fp24_neg99, fp24_seven, fp24_hundred, fpRound_zero, fp24_m99d7,
    show -(14829861 / 1048576 : ℚ) * -0 + 100 = (100 : ℚ) from by norm_num,
    fp24_hundred]

/-- C6 (counterexample): the two-breakpoint curve (0 °C → 100 %, 7 °C → 1 %)
has slope −99/7, which is not representable in `f32`; at a source reading of
7000 millidegrees (the breakpoint x₁ = 7) the `f32` evaluation yields
1048573/1048576 ≈ 0.999997, which truncates to 0 instead of y₁ = 1. -/
theorem linearCurve_breakpoint_f32_off :
    LinearCurve.newR (fpRound 24) [((0 : ℤ), (100 : ℤ)), ((7 : ℤ), (1 : ℤ))] =
      some [mkSeg (fpRound 24) (0, 100) (7, 1)] ∧
    LinearCurve.getValueR (fpRound 24) [mkSeg (fpRound 24) (0, 100) (7, 1)]
      (1000 * 7) = 0 ∧ (0 : ℤ) ≠ 1 := by
  refine ⟨rfl, ?_, by decide⟩
  rw [getValueR_eq, show Int.tdiv (1000 * 7) 1000 = 7 from tdiv_thousand 7,
    mkSeg_f32_smoking,
    lookupSeg_head 7 ((0 : ℤ), -(14829861 / 1048576 : ℚ), (100 : ℚ)) []
      (by norm_num) (by intro u hu; cases hu)]
  dsimp only
  rw [show (((7 : ℤ)) : ℚ) = (7 : ℚ) from by norm_num, fp24_seven,
    show -(14829861 / 1048576 : ℚ) * 7 + 100 = (1048573 : ℚ) / 1048576 from by norm_num,
    fp24_off_value, ratTruncSatI32, truncZ]
  norm_num [i32Sat]

/-- Witness for `linearCurve_breakpoint_exact`: the curve through (0,0) and
(100,100), queried at the second breakpoint. -/
theorem linearCurve_breakpoint_exact_witness :
    LinearCurve.getValueR id (buildSegs id ((0 : ℤ), (0 : ℤ)) [((100 : ℤ), (100 : ℤ))])
      (1000 * 100) = 100 :=
  linearCurve_breakpoint_exact [((0 : ℤ), (0 : ℤ)), ((100 : ℤ), (100 : ℤ))] _ rfl
    (by norm_num [List.pairwise_cons]) (by norm_num) (by norm_num)
    ((100 : ℤ), (100 : ℤ)) (by norm_num)

/-! ### The settling loop of `measure_pwm` (C7) -/

theorem measurePwmGo_cancel (env : Nat → Nat → ℤ) (flag : Nat → Bool) (pwm : Nat) (mrd : ℤ) :
    ∀ (fuel t : Nat) (buf : List ℤ) (mean maxDiff : ℤ) (tf : Nat),
      measurePwmGo env flag pwm mrd fuel t buf mean maxDiff = (.cancelled, tf) →
      ∃ i, flag (t + i) = false := by
  intro fuel
  induction fuel with
  | zero =>
    intro t buf mean maxDiff tf h
    rw [measurePwmGo] at h
    split_ifs at h <;> simp_all
  | succ f IH =>
    intro t buf mean maxDiff tf h
    rw [measurePwmGo] at h
    by_cases h1 : maxDiff ≤ mrd
    · rw [if_pos h1] at h
      exact absurd h (by simp)
    · rw [if_neg h1] at h
      dsimp only at h
      by_cases h2 : flag t = false
      · exact ⟨0, by simpa using h2⟩
      · rw [if_neg h2] at h
        by_cases h3 : 5 < (env t pwm :: buf).length
        · rw [if_pos h3] at h
          obtain ⟨i, hi⟩ := IH (t + 1) _ _ _ tf h
          exact ⟨i + 1, by rw [show t + (i + 1) = t + 1 + i from by omega]; exact hi⟩
        · rw [if_neg h3] at h
          obtain ⟨i, hi⟩ := IH (t + 1) _ _ _ tf h
          exact ⟨i + 1, by rw [show t + (i + 1) = t + 1 + i from by omega]; exact hi⟩

theorem measurePwmGo_step (env : Nat → Nat → ℤ) (flag : Nat → Bool) (pwm : Nat) (mrd : ℤ)
    (f t : Nat) (hf : 1 ≤ f) (buf : List ℤ) (mean maxDiff : ℤ)
    (h1 : mrd < maxDiff) (h2 : flag t = true) (h3 : buf.length < 5) :
    measurePwmGo env flag pwm mrd f t buf mean maxDiff =
      measurePwmGo env flag pwm mrd (f - 1) (t + 1) (env t pwm :: buf) mean maxDiff := by
  obtain ⟨g, rfl⟩ : ∃ g, f = g + 1 := ⟨f - 1, by omega⟩
  rw [measurePwmGo, if_neg (not_le.mpr h1)]
  dsimp only
  rw [if_neg (by rw [h2]; simp), if_neg (by simp only [List.length_cons]; omega)]
  rfl

theorem measurePwmGo_settles (env : Nat → Nat → ℤ) (flag : Nat → Bool) (pwm : Nat)
    (mrd : ℤ) (t0 K : Nat) (hmrd : mrd < 10000) (hflag : ∀ i, flag i = true)
    (hK6 : 6 ≤ K) (hKdiff : winDiff env pwm t0 K ≤ mrd)
    (hmin : ∀ j, 6 ≤ j → j < K → mrd < winDiff env pwm t0 j) :
    ∀ (fuel k : Nat) (mean maxDiff : ℤ),
      5 ≤ k → k ≤ K → K ≤ k + fuel →
      ((k = 5 ∧ mean = 0 ∧ maxDiff = 10000) ∨
        (6 ≤ k ∧ mean = winMean env pwm t0 k ∧ maxDiff = winDiff env pwm t0 k)) →
      measurePwmGo env flag pwm mrd fuel (t0 + k) (win5 env pwm t0 k) mean maxDiff =
        (.settled (winMean env pwm t0 K), t0 + K) := by
  intro fuel
  induction fuel with
  | zero =>
    intro k mean maxDiff h5 hkK hKf hstate
    have hk : k = K := by omega
    subst hk
    rcases hstate with ⟨h51, _, _⟩ | ⟨h6, hm, hd⟩
    · omega
    · rw [measurePwmGo, if_pos (by rw [hd]; exact hKdiff), hm]
  | succ f IH =>
    intro k mean maxDiff h5 hkK hKf hstate
    by_cases hkK2 : k = K
    · subst hkK2
      rcases hstate with ⟨h51, _, _⟩ | ⟨h6, hm, hd⟩
      · omega
      · rw [measurePwmGo, if_pos (by rw [hd]; exact hKdiff), hm]
    · have hklt : k < K := by omega
      have hnd : ¬ maxDiff ≤ mrd := by
        rcases hstate with ⟨_, _, hd⟩ | ⟨h6, _, hd⟩
        · rw [hd]; omega
        · rw [hd]; exact not_le.mpr (hmin k h6 hklt)
      rw [measurePwmGo, if_neg hnd]
      dsimp only
      rw [if_neg (by rw [hflag (t0 + k)]; simp)]
      rw [if_pos (by simp [win5])]
      have hbuf : (env (t0 + k) pwm :: win5 env pwm t0 k).dropLast =
          win5 env pwm t0 (k + 1) := rfl
      rw [hbuf]
      have hlen : (((win5 env pwm t0 (k + 1)).length : ℕ) : ℤ) = 5 := by simp [win5]
      rw [hlen]
      rw [show Int.tdiv (win5 env pwm t0 (k + 1)).sum 5 = winMean env pwm t0 (k + 1) from rfl]
      rw [show maxAbsDiff (win5 env pwm t0 (k + 1)) (winMean env pwm t0 (k + 1)) =
        winDiff env pwm t0 (k + 1) from rfl]
      exact IH (k + 1) _ _ (by omega) (by omega) (by omega) (Or.inr ⟨by omega, rfl, rfl⟩)

theorem measurePwm_settles (env : Nat → Nat → ℤ) (flag : Nat → Bool) (pwm : Nat)
    (mrd : ℤ) (fuel t0 K : Nat) (hmrd : mrd < 10000) (hflag : ∀ i, flag i = true)
    (hK6 : 6 ≤ K) (hKfuel : K ≤ fuel) (hKdiff : winDiff env pwm t0 K ≤ mrd)
    (hmin : ∀ j, 6 ≤ j → j < K → mrd < winDiff env pwm t0 j) :
    measurePwm env flag pwm mrd fuel t0 = (.settled (winMean env pwm t0 K), t0 + K) := by
  rw [measurePwm]
  rw [measurePwmGo_step env flag pwm mrd fuel t0 (by omega) [] 0 10000 (by omega)
    (hflag t0) (by simp)]
  rw [measurePwmGo_step env flag pwm mrd (fuel - 1) (t0 + 1) (by omega) _ 0 10000 (by omega)
    (hflag (t0 + 1)) (by simp)]
  rw [measurePwmGo_step env flag pwm mrd (fuel - 1 - 1) (t0 + 1 + 1) (by omega) _ 0 10000
    (by omega) (hflag (t0 + 1 + 1)) (by simp)]
  rw [measurePwmGo_step env flag pwm mrd (fuel - 1 - 1 - 1) (t0 + 1 + 1 + 1) (by omega) _ 0
    10000 (by omega) (hflag (t0 + 1 + 1 + 1)) (by simp)]
  rw [measurePwmGo_step env flag pwm mrd (fuel - 1 - 1 - 1 - 1) (t0 + 1 + 1 + 1 + 1)
    (by omega) _ 0 10000 (by omega) (hflag (t0 + 1 + 1 + 1 + 1)) (by simp)]
  exact measurePwmGo_settles env flag pwm mrd t0 K hmrd hflag hK6 hKdiff hmin
    (fuel - 1 - 1 - 1 - 1 - 1) 5 0 10000 (by omega) (by omega) (by omega)
    (Or.inl ⟨rfl, rfl, rfl⟩)

/-- C7 (amended): `measure_pwm` returns `None` only when the stop flag is
observed cleared; and when the flag stays set and the samples settle, it
returns `Some(mean)` where `mean` is the truncated mean of the five most
recent samples at the first loop iteration `K` — necessarily the sixth or
later, because the source checks `rpms.len() > 5` (the buffer must *exceed*
5 samples, the oldest then being discarded) rather than `≥ 5` — at which the
settling check `max |sample − mean| ≤ max_diff` over those five samples
passes (minimality hypothesis `hmin`), provided the initial threshold 10000
exceeds `max_diff`. -/
theorem measurePwm_characterization :
    (∀ (env : Nat → Nat → ℤ) (flag : Nat → Bool) (pwm : Nat) (mrd : ℤ) (fuel t0 tf : Nat),
      measurePwm env flag pwm mrd fuel t0 = (.cancelled, tf) →
      ∃ i, flag (t0 + i) = false) ∧
    (∀ (env : Nat → Nat → ℤ) (flag : Nat → Bool) (pwm : Nat) (mrd : ℤ) (fuel t0 K : Nat),
      mrd < 10000 → (∀ i, flag i = true) → 6 ≤ K → K ≤ fuel →
      winDiff env pwm t0 K ≤ mrd →
      (∀ j, 6 ≤ j → j < K → mrd < winDiff env pwm t0 j) →
      measurePwm env flag pwm mrd fuel t0 =
        (.settled (winMean env pwm t0 K), t0 + K)) := by
  constructor
  · intro env flag pwm mrd fuel t0 tf h
    exact measurePwmGo_cancel env flag pwm mrd fuel t0 [] 0 10000 tf h
  · intro env flag pwm mrd fuel t0 K h1 h2 h3 h4 h5 h6
    exact measurePwm_settles env flag pwm mrd fuel t0 K h1 h2 h3 h4 h5 h6

/-- Witness for `measurePwm_characterization` (settling conjunct): constant
samples settle at the sixth iteration with their own value as mean. -/
theorem measurePwm_characterization_witness :
    measurePwm (fun _ _ => (5 : ℤ)) (fun _ => true) 3 0 10 0 =
      (.settled (winMean (fun _ _ => (5 : ℤ)) 3 0 6), 0 + 6) :=
  measurePwm_characterization.2 (fun _ _ => (5 : ℤ)) (fun _ => true) 3 0 10 0 6
    (by decide) (fun _ => rfl) (by decide) (by decide) (by decide) (by omega)

set_option maxHeartbeats 4000000 in
/-- C7 (counterexample): with samples 0,0,0,0,0,100,100,… and tolerance 0,
the claimed loop (check as soon as the buffer holds 5 samples) settles at
the fifth iteration with mean 0, but the code (which requires the buffer to
exceed 5 samples) keeps sampling and settles at the tenth iteration with
mean 100. -/
theorem measurePwm_check_after_five :
    measurePwm (fun t _ => if t < 5 then 0 else 100) (fun _ => true) 77 0 20 0 =
      (.settled 100, 10) ∧
    measurePwmClaim (fun t _ => if t < 5 then 0 else 100) (fun _ => true) 77 0 20 0 =
      (.settled 0, 5) :=
  ⟨by decide, by decide⟩

end Rufaco
